import Mathlib

/-!
Verification of the core components of the ai-powered-document-generator
repository: the token-budget batch partitioner (`SmartChunker` in
`backend/services/chunker.py`) and the dependency-aware parallel task
scheduler (`TaskScheduler` in `backend/services/task_scheduler.py`,
wired by `agents/coordinator.py`).

The Python code is shallowly embedded:
* pure functions become Lean functions (the external `tiktoken` token
  counter is a parameter `String -> Nat`, per the spec's TokenCounter
  contract);
* fallible file reading is an `Except String String` parameter;
* the asyncio run of `schedule_and_execute` is modelled by a
  deterministic small-step interpreter over an explicit scheduler state,
  reflecting asyncio's single-threaded cooperative event loop: ready
  callbacks run in FIFO order, timer callbacks wake at their deadline in
  scheduling order, the semaphore wakes waiters FIFO, and each agent
  operation is a black box with a predetermined outcome and latency.
-/

namespace DocGen

/-! ## Chunker: data model (`SmartChunker.extract_metadata` result dict) -/

/-- The success-shaped metadata dictionary built by
`SmartChunker.extract_metadata` (`chunker.py`, lines 40-51). -/
structure FileMetaOk where
  path : String
  name : String
  extension : String
  size : Nat
  tokens : Nat
  lines : Nat
  functions : List String
  classes : List String
  preview : String
  full_content : Option String
deriving DecidableEq, Repr

/-- A metadata dictionary is either the success shape or the error shape
`{path, name, error}` returned from the `except` branch of
`extract_metadata` (`chunker.py`, lines 53-58).  `create_chunks` tests
membership of the `error` key, which is exactly this tag. -/
inductive FileMeta where
  | ok (m : FileMetaOk)
  | err (path name error : String)
deriving DecidableEq, Repr

/-- True exactly on the error-shaped dictionaries (`'error' in file_meta`). -/
def FileMeta.isErr : FileMeta → Bool
  | .ok _ => false
  | .err _ _ _ => true

/-- Does `pat` occur at the start of `s` (on character lists)? -/
def isPref : List Char → List Char → Bool
  | [], _ => true
  | _ :: _, [] => false
  | c :: cs, d :: ds => c == d && isPref cs ds

/-- Does `sub` occur anywhere in `s` (on character lists)? -/
def containsSub (sub : List Char) : List Char → Bool
  | [] => isPref sub []
  | c :: rest => isPref sub (c :: rest) || containsSub sub rest

/-- Substring test on strings, modelling Python's `in` operator. -/
def strContains (s sub : String) : Bool :=
  containsSub sub.data s.data

/-! ## Chunker: `_create_file_summary` (`chunker.py`, lines 113-129) -/

/-- Embedding of `SmartChunker._create_file_summary`.  Note that the
source's final f-string is literally `"**Code Preview**:\n``````\n\n"`:
it appends a preview header and two empty code fences but never
interpolates `file_meta['preview']` itself. -/
def create_file_summary (m : FileMetaOk) : String :=
  let s0 := "## " ++ m.name ++ "\n\n"
      ++ "- Path: " ++ m.path ++ "\n"
      ++ "- Lines: " ++ toString m.lines ++ "\n"
      ++ "- Size: " ++ toString m.size ++ " bytes\n\n"
  let s1 := if m.functions ≠ [] then
      s0 ++ "**Functions**: " ++ String.intercalate ", " (m.functions.take 15) ++ "\n\n"
    else s0
  let s2 := if m.classes ≠ [] then
      s1 ++ "**Classes**: " ++ String.intercalate ", " (m.classes.take 10) ++ "\n\n"
    else s1
  if m.preview ≠ "" then
    s2 ++ "**Code Preview**:\n``````\n\n"
  else s2

/-! ## Chunker: `create_chunks` (`chunker.py`, lines 84-111) -/

/-- The loop body of `SmartChunker.create_chunks`, with the running
accumulators made explicit: `chunks` is the closed-batches list,
`cur` the open batch, `curTok` its running token total.  Error-shaped
entries are skipped (`if 'error' in file_meta: continue`); otherwise the
summary cost is compared against the budget exactly as in the source. -/
def createChunksAux (costOf : FileMetaOk → Nat) (maxTokens : Nat) :
    List FileMeta → List (List FileMeta) → List FileMeta → Nat → List (List FileMeta)
  | [], chunks, cur, _ =>
      if cur = [] then chunks else chunks ++ [cur]
  | f :: rest, chunks, cur, curTok =>
      match f with
      | .err p n e => createChunksAux costOf maxTokens rest chunks cur curTok
      | .ok m =>
          let summaryTokens := costOf m
          if curTok + summaryTokens > maxTokens then
            createChunksAux costOf maxTokens rest
              (if cur = [] then chunks else chunks ++ [cur]) [.ok m] summaryTokens
          else
            createChunksAux costOf maxTokens rest chunks (cur ++ [.ok m]) (curTok + summaryTokens)

/-- Embedding of `SmartChunker.create_chunks`: the per-file cost is the
token count of the rendered file summary,
`self.count_tokens(self._create_file_summary(file_meta))`, with the
external tokenizer supplied as `count_tokens`. -/
def create_chunks (count_tokens : String → Nat) (maxTokens : Nat)
    (files : List FileMeta) : List (List FileMeta) :=
  createChunksAux (fun m => count_tokens (create_file_summary m)) maxTokens files [] [] 0

/-- The prompt cost `create_chunks` charges for one success-shaped entry. -/
def summaryCost (count_tokens : String → Nat) (m : FileMetaOk) : Nat :=
  count_tokens (create_file_summary m)

/-- Total cost of a batch under an arbitrary per-summary cost function
(error entries, which never occur in batches, cost nothing). -/
def chunkCostBy (costOf : FileMetaOk → Nat) : List FileMeta → Nat
  | [] => 0
  | .ok m :: rest => costOf m + chunkCostBy costOf rest
  | .err _ _ _ :: rest => chunkCostBy costOf rest

/-- Total prompt cost of a batch, with the prompt cost of each summary
computed as `create_chunks` computes it. -/
def chunkCost (count_tokens : String → Nat) (c : List FileMeta) : Nat :=
  chunkCostBy (summaryCost count_tokens) c

/-! ## Chunker: `_create_smart_preview` (`chunker.py`, lines 63-82) -/

/-- The priority keyword list of `_create_smart_preview`. -/
def priorityKeywords : List String :=
  ["def ", "class ", "\"\"\"", "'''", "//", "/*", "#", "function ", "const ", "interface "]

/-- Embedding of `SmartChunker._create_smart_preview` (the `extension`
parameter is unused in the source body as well): for each of the first
100 lines containing a priority keyword, append that line and the next
two (`lines[i:i+3]`), stopping once `maxLines` lines are collected. -/
def create_smart_preview (content : String) (extension : String)
    (maxLines : Nat) : String :=
  let lines := content.splitOn "\n"
  let scan : List (Nat × String) → List String → List String := fun idx acc =>
    idx.foldl (fun acc (iLine : Nat × String) =>
      if acc.length ≥ maxLines then acc
      else if priorityKeywords.any (fun kw => strContains iLine.2 kw) then
        acc ++ ((lines.drop iLine.1).take 3)
      else acc) acc
  let important := scan (lines.take 100).enum []
  let preview := String.intercalate "\n" (important.take maxLines)
  if lines.length > maxLines then
    preview ++ "\n... (" ++ toString (lines.length - maxLines) ++ " more lines)"
  else preview

/-! ## Chunker: `extract_metadata` (`chunker.py`, lines 21-61) -/

/-- Python's `len(content.splitlines())` for newline-separated text. -/
def pyLineCount (s : String) : Nat :=
  if s = "" then 0
  else if s.endsWith "\n" then (s.splitOn "\n").length - 1
  else (s.splitOn "\n").length

/-- Embedding of `SmartChunker.extract_metadata`.  The file read is the
`readResult` parameter (its `Except.error` case is any exception raised
while reading or decoding); `pyParse` is the external `ast.parse`
walk producing function and class names, whose own failure (`None`)
is swallowed by the inner bare `except`. -/
def extract_metadata (count_tokens : String → Nat)
    (pathStr name suffix : String)
    (readResult : Except String String)
    (pyParse : String → Option (List String × List String)) : FileMeta :=
  match readResult with
  | .error e => .err pathStr name e
  | .ok content =>
      let tokens := count_tokens content
      let lines := pyLineCount content
      let fc : List String × List String :=
        if suffix = ".py" then (pyParse content).getD ([], []) else ([], [])
      let preview := create_smart_preview content suffix 30
      .ok
        { path := pathStr
          name := name
          extension := suffix
          size := content.length
          tokens := tokens
          lines := lines
          functions := fc.1
          classes := fc.2
          preview := preview
          full_content := if tokens < 1500 then some content else none }

/-! ## Scheduler: data model (`task_scheduler.py`) -/

/-- The `AgentStage` enum (`task_scheduler.py`, lines 9-14). -/
inductive AgentStage where
  | analysis
  | api_documentation
  | readme_creation
  | architecture_docs
deriving DecidableEq, Repr

/-- An `AgentTask` (`task_scheduler.py`, lines 16-23).  The
`agent_func` job function is a black box that eventually settles
(spec section 6): it is modelled by its predetermined outcome `op`
(success value or raised error) together with its latency `opTicks`
in polling-interval ticks of 0.1 time-units; `input_data` is only ever
passed through to the job function, so it is absorbed into `op`. -/
structure AgentTask (ε ρ : Type) where
  stage : AgentStage
  dependencies : List AgentStage
  priority : Int
  op : Except ε ρ
  opTicks : Nat

/-- The exceptions a task can terminate with: the error raised by its
own operation, the `Exception("Dependencies failed: ...")` from
`_wait_for_dependencies` (line 76), or the `asyncio.TimeoutError`
naming the still-missing dependencies (lines 83-85). -/
inductive SchedError (ε : Type) where
  | opErr (e : ε)
  | depsFailed (failedDeps : List AgentStage)
  | depTimeout (missing : List AgentStage)
deriving DecidableEq, Repr

/-- The stage identifiers an error message names: a dependency failure
names the failed prerequisites, a timeout names the missing ones, and an
operation's own exception is opaque and names no stage. -/
def SchedError.mentionedStages {ε : Type} : SchedError ε → List AgentStage
  | .opErr _ => []
  | .depsFailed l => l
  | .depTimeout l => l

/-- Where a task coroutine is suspended: not yet past the semaphore,
inside the dependency poll loop (with the wait's start time), awaiting
its operation, or terminated. -/
inductive TaskPC (ε : Type) where
  | start
  | waiting (startTime : Nat)
  | running
  | doneOk
  | doneErr (e : SchedError ε)

/-- Observable events of a run: `invoke s` when stage `s`'s operation
is called, `publish s` when its result is stored in `results` and `s`
added to `completed_stages` (one atomic step, lines 50-52 of the
source, with no suspension point between them), `fail s` when `s` is
added to `failed_stages`. -/
inductive Event where
  | invoke (s : AgentStage)
  | publish (s : AgentStage)
  | fail (s : AgentStage)
deriving DecidableEq, Repr

/-- The poll-loop timeout: 300 time-units at 0.1 time-units per tick
(`task_scheduler.py`, lines 70-71 and 87). -/
def timeoutTicks : Nat := 3000

/-- One check of the body of `_wait_for_dependencies` (lines 73-88),
in source order: all dependencies completed; else any dependency
failed; else elapsed wait beyond the timeout (naming the missing
dependencies); else keep polling. -/
inductive DepCheck where
  | allDone
  | someFailed (failedDeps : List AgentStage)
  | timedOut (missing : List AgentStage)
  | keepWaiting
deriving DecidableEq, Repr

/-- Evaluate the poll-loop checks against the current
`completed_stages` / `failed_stages` and the elapsed wait. -/
def depCheck (deps completed failed : List AgentStage)
    (elapsed timeoutT : Nat) : DepCheck :=
  if deps.all (fun d => completed.contains d) then .allDone
  else if deps.filter (fun d => failed.contains d) ≠ [] then
    .someFailed (deps.filter (fun d => failed.contains d))
  else if elapsed > timeoutT then
    .timedOut (deps.filter (fun d => ! completed.contains d))
  else .keepWaiting

/-! ## Scheduler: event-loop state -/

/-- The state of one `schedule_and_execute` run under asyncio's
single-threaded cooperative event loop: the sorted task list, the
semaphore's free-slot count and FIFO waiter queue, the FIFO ready
queue of task indices, the pending timer queue `sleeping` (wake tick,
task index; kept sorted by wake tick, ties in scheduling order, as in
asyncio's timer heap), the loop clock in 0.1-unit ticks, each task's
suspension point, and the scheduler's shared mutable state
(`completed_stages`, `failed_stages`, `results`) plus the event trace. -/
structure SchedState (ε ρ : Type) where
  tasks : List (AgentTask ε ρ)
  sem : Nat
  semWait : List Nat
  ready : List Nat
  sleeping : List (Nat × Nat)
  time : Nat
  pcs : List (TaskPC ε)
  completed : List AgentStage
  failed : List AgentStage
  results : List (AgentStage × ρ)
  trace : List Event

/-- Insert a timer entry keeping the queue sorted by wake tick, after
existing entries with an equal or earlier wake tick (asyncio breaks
deadline ties by scheduling order). -/
def insertSleep (w : Nat) (i : Nat) : List (Nat × Nat) → List (Nat × Nat)
  | [] => [(w, i)]
  | (w', i') :: rest =>
      if w' ≤ w then (w', i') :: insertSleep w i rest
      else (w, i) :: (w', i') :: rest

/-- Release one semaphore slot (exit of `async with self.semaphore`):
increment the count and move the first waiter, if any, to the back of
the ready queue. -/
def releaseSem {ε ρ : Type} (σ : SchedState ε ρ) : SchedState ε ρ :=
  match σ.semWait with
  | [] => { σ with sem := σ.sem + 1 }
  | w :: rest => { σ with sem := σ.sem + 1, semWait := rest, ready := σ.ready ++ [w] }

/-- Start task `i`'s operation (`await task.agent_func(...)`, line 47):
record the invoke event and schedule the operation's completion after
its latency. -/
def invokeOp {ε ρ : Type} (σ : SchedState ε ρ) (i : Nat) (tk : AgentTask ε ρ) :
    SchedState ε ρ :=
  { σ with pcs := σ.pcs.set i TaskPC.running,
           trace := σ.trace ++ [Event.invoke tk.stage],
           sleeping := insertSleep (σ.time + tk.opTicks) i σ.sleeping }

/-- The set insertion `self.completed_stages.add(stage)` /
`self.failed_stages.add(stage)` (`task_scheduler.py`, lines 51 and 57)
on the membership-checked stage sets: adding a stage already present
changes nothing; a new stage is appended. -/
def setAdd (l : List AgentStage) (s : AgentStage) : List AgentStage :=
  if s ∈ l then l else l ++ [s]

/-- Task `i` terminates with exception `e` (lines 55-58): it is added
to `failed_stages`, the exception is recorded, and the semaphore slot
is released. -/
def failTask {ε ρ : Type} (σ : SchedState ε ρ) (i : Nat) (tk : AgentTask ε ρ)
    (e : SchedError ε) : SchedState ε ρ :=
  releaseSem { σ with failed := setAdd σ.failed tk.stage,
                      pcs := σ.pcs.set i (TaskPC.doneErr e),
                      trace := σ.trace ++ [Event.fail tk.stage] }

/-- The dict assignment `self.results[task.stage] = result`
(`task_scheduler.py`, line 52) on the insertion-ordered results map:
an existing key keeps its position and gets the new value (Python dict
update semantics); a new key is appended at the end. -/
def dictStore {ρ : Type} : List (AgentStage × ρ) → AgentStage → ρ → List (AgentStage × ρ)
  | [], s, v => [(s, v)]
  | (k, w) :: rest, s, v =>
      if k = s then (k, v) :: rest
      else (k, w) :: dictStore rest s v

/-- Task `i`'s operation settles: on success the result is stored and
the stage added to `completed_stages` in one step (lines 50-52), on
failure the exception propagates (lines 55-58); either way the
semaphore slot is released. -/
def applyOp {ε ρ : Type} (σ : SchedState ε ρ) (i : Nat) (tk : AgentTask ε ρ) :
    SchedState ε ρ :=
  match tk.op with
  | .ok r => releaseSem { σ with results := dictStore σ.results tk.stage r,
                                 completed := setAdd σ.completed tk.stage,
                                 pcs := σ.pcs.set i TaskPC.doneOk,
                                 trace := σ.trace ++ [Event.publish tk.stage] }
  | .error e => failTask σ i tk (SchedError.opErr e)

/-- One iteration of the `_wait_for_dependencies` loop for task `i`
whose wait started at tick `st`: run the checks; on `keepWaiting`
sleep one polling interval (`await asyncio.sleep(0.1)`, line 88). -/
def pollStep {ε ρ : Type} (σ : SchedState ε ρ) (i : Nat) (tk : AgentTask ε ρ)
    (st : Nat) : SchedState ε ρ :=
  match depCheck tk.dependencies σ.completed σ.failed (σ.time - st) timeoutTicks with
  | .allDone => invokeOp σ i tk
  | .someFailed fd => failTask σ i tk (SchedError.depsFailed fd)
  | .timedOut ms => failTask σ i tk (SchedError.depTimeout ms)
  | .keepWaiting => { σ with pcs := σ.pcs.set i (TaskPC.waiting st),
                             sleeping := insertSleep (σ.time + 1) i σ.sleeping }

/-- The body of `execute_task` once the semaphore is held: with no
dependencies `_wait_for_dependencies` returns without suspending
(line 67) and the operation starts at once; otherwise the first poll
check runs synchronously with the wait clock started now (lines 69-71). -/
def startBody {ε ρ : Type} (σ : SchedState ε ρ) (i : Nat) (tk : AgentTask ε ρ) :
    SchedState ε ρ :=
  if tk.dependencies = [] then invokeOp σ i tk
  else pollStep σ i tk σ.time

/-- Resume task `i` from its current suspension point: at `start` try
to acquire a semaphore slot (queueing FIFO when none is free), at
`waiting` run one poll iteration, at `running` settle the operation. -/
def runTask {ε ρ : Type} (σ : SchedState ε ρ) (i : Nat) : SchedState ε ρ :=
  match σ.tasks[i]?, σ.pcs[i]? with
  | some tk, some pc =>
      match pc with
      | .start =>
          if 0 < σ.sem then startBody { σ with sem := σ.sem - 1 } i tk
          else { σ with semWait := σ.semWait ++ [i] }
      | .waiting st => pollStep σ i tk st
      | .running => applyOp σ i tk
      | .doneOk => σ
      | .doneErr _ => σ
  | _, _ => σ

/-- One event-loop step: run the first ready task; with no ready task,
advance the clock to the earliest pending timer and wake it; with
neither, the loop is quiescent.  (The state is destructured up front so
that iterating `step` evaluates each intermediate state only once.) -/
def step {ε ρ : Type} : SchedState ε ρ → SchedState ε ρ
  | ⟨tasks, sem, semWait, i :: rest, sleeping, time, pcs, completed, failed, results, trace⟩ =>
      runTask ⟨tasks, sem, semWait, rest, sleeping, time, pcs, completed, failed, results, trace⟩ i
  | ⟨tasks, sem, semWait, [], (w, i) :: rest, _, pcs, completed, failed, results, trace⟩ =>
      ⟨tasks, sem, semWait, [i], rest, w, pcs, completed, failed, results, trace⟩
  | ⟨tasks, sem, semWait, [], [], time, pcs, completed, failed, results, trace⟩ =>
      ⟨tasks, sem, semWait, [], [], time, pcs, completed, failed, results, trace⟩

/-- Iterate the event loop `n` steps. -/
def steps {ε ρ : Type} : Nat → SchedState ε ρ → SchedState ε ρ
  | 0, σ => σ
  | n + 1, σ => steps n (step σ)

/-! ## Scheduler: `schedule_and_execute` (`task_scheduler.py`, lines 92-120) -/

/-- The launch-order sort key comparison of line 98,
`key=lambda t: (len(t.dependencies), -t.priority)`: `a` strictly
precedes `b` when it has fewer dependencies, or equally many and
higher priority. -/
def taskBefore {ε ρ : Type} (a b : AgentTask ε ρ) : Bool :=
  a.dependencies.length < b.dependencies.length ||
    (a.dependencies.length == b.dependencies.length && decide (b.priority < a.priority))

/-- Stable insertion for the launch-order sort: `a` goes after every
existing element that strictly precedes it (Python's `sorted` is
stable). -/
def insertTask {ε ρ : Type} (a : AgentTask ε ρ) :
    List (AgentTask ε ρ) → List (AgentTask ε ρ)
  | [] => [a]
  | b :: rest => if taskBefore b a then b :: insertTask a rest else a :: b :: rest

/-- Stable sort by `(len(dependencies), -priority)` (line 98). -/
def sortTasks {ε ρ : Type} : List (AgentTask ε ρ) → List (AgentTask ε ρ)
  | [] => []
  | a :: rest => insertTask a (sortTasks rest)

/-- The `TaskScheduler` object (`__init__`, lines 33-38): the
concurrency capacity and the mutable `completed_stages`,
`failed_stages` and `results` — which live on the object, not on an
individual run. -/
structure TaskScheduler (ε ρ : Type) where
  max_parallel : Nat
  completed_stages : List AgentStage
  failed_stages : List AgentStage
  results : List (AgentStage × ρ)

/-- A freshly constructed `TaskScheduler(max_parallel=n)`. -/
def TaskScheduler.new (ε ρ : Type) (n : Nat) : TaskScheduler ε ρ :=
  ⟨n, [], [], []⟩

/-- The event-loop state at the start of `schedule_and_execute`:
tasks sorted for launch, all coroutines ready in that order (as
`asyncio.gather` schedules them), the semaphore full, and the shared
mutable state carried over from the scheduler object. -/
def initState {ε ρ : Type} (sc : TaskScheduler ε ρ)
    (tasks : List (AgentTask ε ρ)) : SchedState ε ρ :=
  let ts := sortTasks tasks
  { tasks := ts, sem := sc.max_parallel, semWait := [], ready := List.range ts.length,
    sleeping := [], time := 0, pcs := ts.map (fun _ => TaskPC.start),
    completed := sc.completed_stages, failed := sc.failed_stages,
    results := sc.results, trace := [] }

/-- Every task coroutine has settled (so `asyncio.gather` returns). -/
def allSettled {ε : Type} (pcs : List (TaskPC ε)) : Bool :=
  pcs.all (fun pc => match pc with
    | .doneOk => true
    | .doneErr _ => true
    | _ => false)

/-- The per-task exceptions in launch order, as
`[r for r in results if isinstance(r, Exception)]` collects them from
`asyncio.gather(..., return_exceptions=True)` (lines 107-111). -/
def gatherFailures {ε : Type} (pcs : List (TaskPC ε)) : List (SchedError ε) :=
  pcs.filterMap (fun pc => match pc with
    | .doneErr e => some e
    | _ => none)

/-- Embedding of `TaskScheduler.schedule_and_execute`: run the event
loop for `fuel` steps; if every task settled, return the updated
scheduler object together with either the raised
`Exception(f"Task execution failed: {failures[0]}")` — modelled as the
first failure it wraps — or `self.results`; `none` models a run that
has not finished (the extra steps of a generous `fuel` are no-ops once
the loop is quiescent). -/
def schedule_and_execute {ε ρ : Type} (sc : TaskScheduler ε ρ)
    (tasks : List (AgentTask ε ρ)) (fuel : Nat) :
    Option (Except (SchedError ε) (List (AgentStage × ρ)) × TaskScheduler ε ρ) :=
  match steps fuel (initState sc tasks) with
  | ⟨_, _, _, _, _, _, pcs, completed, failed, results, _⟩ =>
      if allSettled pcs then
        match gatherFailures pcs with
        | [] => some (.ok results, ⟨sc.max_parallel, completed, failed, results⟩)
        | e :: _ => some (.error e, ⟨sc.max_parallel, completed, failed, results⟩)
      else none

/-- The fixed three-task graph declared by `AgentCoordinator.coordinate`
(`coordinator.py`, lines 44-75): analysis with no dependencies and
priority 10; API documentation and README creation each depending only
on analysis, both at priority 5, listed in that order. -/
def coordinatorTasks {ε ρ : Type} (opA opB opC : Except ε ρ)
    (dA dB dC : Nat) : List (AgentTask ε ρ) :=
  [ ⟨AgentStage.analysis, [], 10, opA, dA⟩,
    ⟨AgentStage.api_documentation, [AgentStage.analysis], 5, opB, dB⟩,
    ⟨AgentStage.readme_creation, [AgentStage.analysis], 5, opC, dC⟩ ]

/-! ## Scheduler: the `_wait_for_dependencies` loop in isolation
(`task_scheduler.py`, lines 62-90), against an environment giving the
contents of `completed_stages` / `failed_stages` at each poll tick -/

/-- Outcome of one task's dependency wait, tagged with the tick at
which the loop exited. -/
inductive WaitOutcome where
  | success (exitTick : Nat)
  | depsFailed (exitTick : Nat) (failedDeps : List AgentStage)
  | timedOut (exitTick : Nat) (missing : List AgentStage)
deriving DecidableEq, Repr

/-- The `_wait_for_dependencies` poll loop from tick `t` after the wait
began, one tick per 0.1-unit sleep: exit when all dependencies are in
`completedAt t`; else fail naming the dependencies in `failedAt t`, if
any; else time out once the elapsed wait exceeds `timeoutT`, naming the
still-missing dependencies; else sleep one interval and poll again. -/
def wait_for_dependencies (deps : List AgentStage)
    (completedAt failedAt : Nat → List AgentStage)
    (timeoutT : Nat) (t : Nat) : WaitOutcome :=
  if deps.all (fun d => (completedAt t).contains d) then .success t
  else if deps.filter (fun d => (failedAt t).contains d) ≠ [] then
    .depsFailed t (deps.filter (fun d => (failedAt t).contains d))
  else if ht : t > timeoutT then
    .timedOut t (deps.filter (fun d => ! (completedAt t).contains d))
  else
    wait_for_dependencies deps completedAt failedAt timeoutT (t + 1)
termination_by timeoutT + 1 - t
decreasing_by omega

/-! ## Instrumentation for the concurrency bound (spec section 8:
tasks holding `Running` state) -/

/-- Suspension points at which the task holds a semaphore slot: the
whole body of `execute_task` runs inside `async with self.semaphore`. -/
def TaskPC.holdsSlot {ε : Type} : TaskPC ε → Bool
  | .waiting _ => true
  | .running => true
  | _ => false

/-- Suspension points at which the task has entered its operation call
and not yet completed or failed. -/
def TaskPC.isRunning {ε : Type} : TaskPC ε → Bool
  | .running => true
  | _ => false

/-- How many tasks currently hold a semaphore slot. -/
def countHolding {ε ρ : Type} (σ : SchedState ε ρ) : Nat :=
  σ.pcs.countP (fun pc => pc.holdsSlot)

/-- How many tasks are currently inside their operation call. -/
def countRunning {ε ρ : Type} (σ : SchedState ε ρ) : Nat :=
  σ.pcs.countP (fun pc => pc.isRunning)

/-- The semaphore invariant: free slots plus held slots equal the
configured capacity. -/
def SemInv {ε ρ : Type} (N : Nat) (σ : SchedState ε ρ) : Prop :=
  σ.sem + countHolding σ = N

/-! ## Concrete data for the spec's chunker scenarios -/

/-- A minimal success-shaped metadata entry named `nm`. -/
def sampleMeta (nm : String) : FileMetaOk :=
  ⟨nm, nm, "", 0, 0, 0, [], [], "", none⟩

/-- A token counter realizing the prompt costs of the spec's concrete
scenario (section 8): rendered summaries of `a`, `b`, `c` cost 4000,
3000, 2500; any other text (in particular `d`'s summary) costs 9000. -/
def sampleCost (s : String) : Nat :=
  if s = create_file_summary (sampleMeta "a") then 4000
  else if s = create_file_summary (sampleMeta "b") then 3000
  else if s = create_file_summary (sampleMeta "c") then 2500
  else 9000

/-- A metadata entry with a non-empty preview, to exercise the
preview section of `_create_file_summary`. -/
def previewMeta : FileMetaOk :=
  ⟨"src/f.py", "f.py", ".py", 10, 20, 2, ["f", "g"], [], "SECRETPREVIEW", none⟩

/-! # Lemmas

General facts about the embedded definitions, shared by the claim
theorems below. -/

/-- Appending a success entry to a batch adds exactly its cost. -/
theorem chunkCostBy_append_ok (costOf : FileMetaOk → Nat) (m : FileMetaOk) :
    ∀ l : List FileMeta, chunkCostBy costOf (l ++ [.ok m]) = chunkCostBy costOf l + costOf m
  | [] => by simp [chunkCostBy]
  | .ok m' :: rest => by
      have ih := chunkCostBy_append_ok costOf m rest
      simp only [List.cons_append, chunkCostBy, List.append_eq]
      omega
  | .err p n e :: rest => by
      have ih := chunkCostBy_append_ok costOf m rest
      simp only [List.cons_append, chunkCostBy, List.append_eq]
      omega

/-- A member's cost bounds the batch cost from below. -/
theorem le_chunkCostBy_of_mem (costOf : FileMetaOk → Nat) (m : FileMetaOk) :
    ∀ c : List FileMeta, FileMeta.ok m ∈ c → costOf m ≤ chunkCostBy costOf c
  | [], h => by simp at h
  | .ok m' :: rest, h => by
      rcases List.mem_cons.mp h with h1 | h2
      · cases h1
        simp [chunkCostBy]
      · have := le_chunkCostBy_of_mem costOf m rest h2
        simp only [chunkCostBy]
        omega
  | .err p n e :: rest, h => by
      rcases List.mem_cons.mp h with h1 | h2
      · cases h1
      · simpa [chunkCostBy] using le_chunkCostBy_of_mem costOf m rest h2

/-- The concatenation of the batches produced by the `create_chunks`
loop is the closed batches, then the open batch, then the rest of the
input with error entries removed. -/
theorem createChunksAux_flatten (costOf : FileMetaOk → Nat) (B : Nat) :
    ∀ (rest : List FileMeta) (chunks : List (List FileMeta)) (cur : List FileMeta) (curTok : Nat),
      (createChunksAux costOf B rest chunks cur curTok).flatten
        = chunks.flatten ++ cur ++ rest.filter (fun f => ! f.isErr)
  | [], chunks, cur, curTok => by
      by_cases hc : cur = [] <;> simp [createChunksAux, hc]
  | .err p n e :: rest, chunks, cur, curTok => by
      simp [createChunksAux, FileMeta.isErr,
        createChunksAux_flatten costOf B rest chunks cur curTok]
  | .ok m :: rest, chunks, cur, curTok => by
      simp only [createChunksAux]
      split
      · by_cases hc : cur = []
        · simp [hc, FileMeta.isErr,
            createChunksAux_flatten costOf B rest chunks [FileMeta.ok m] (costOf m)]
        · simp [hc, FileMeta.isErr,
            createChunksAux_flatten costOf B rest (chunks ++ [cur]) [FileMeta.ok m] (costOf m)]
      · simp [FileMeta.isErr,
          createChunksAux_flatten costOf B rest chunks (cur ++ [FileMeta.ok m]) (curTok + costOf m)]

/-- Any batch of two or more entries produced by the `create_chunks`
loop keeps its total cost within the budget, provided the running
accumulators satisfy the loop invariant. -/
theorem createChunksAux_bounded (costOf : FileMetaOk → Nat) (B : Nat) :
    ∀ (rest : List FileMeta) (chunks : List (List FileMeta)) (cur : List FileMeta) (curTok : Nat),
      curTok = chunkCostBy costOf cur →
      (2 ≤ cur.length → curTok ≤ B) →
      (∀ c ∈ chunks, 2 ≤ c.length → chunkCostBy costOf c ≤ B) →
      ∀ c ∈ createChunksAux costOf B rest chunks cur curTok,
        2 ≤ c.length → chunkCostBy costOf c ≤ B
  | [], chunks, cur, curTok => by
      intro hcost hcur hchunks c hc
      by_cases hne : cur = []
      · simp only [createChunksAux, if_pos hne] at hc
        exact hchunks c hc
      · simp only [createChunksAux, if_neg hne] at hc
        rcases List.mem_append.mp hc with h | h
        · exact hchunks c h
        · rcases List.mem_singleton.mp h with rfl
          intro h2
          exact hcost ▸ hcur h2
  | .err p n e :: rest, chunks, cur, curTok => by
      intro hcost hcur hchunks
      exact createChunksAux_bounded costOf B rest chunks cur curTok hcost hcur hchunks
  | .ok m :: rest, chunks, cur, curTok => by
      intro hcost hcur hchunks
      simp only [createChunksAux]
      split
      · refine createChunksAux_bounded costOf B rest _ [FileMeta.ok m] (costOf m)
          (by simp [chunkCostBy]) (by simp) ?_
        intro c hc
        by_cases hne : cur = []
        · rw [if_pos hne] at hc
          exact hchunks c hc
        · rw [if_neg hne] at hc
          rcases List.mem_append.mp hc with h | h
          · exact hchunks c h
          · rcases List.mem_singleton.mp h with rfl
            intro h2
            exact hcost ▸ hcur h2
      · rename_i hle
        refine createChunksAux_bounded costOf B rest chunks (cur ++ [FileMeta.ok m])
          (curTok + costOf m) ?_ ?_ hchunks
        · rw [chunkCostBy_append_ok, hcost]
        · intro _
          omega

/-- The `create_chunks` loop never emits an empty batch. -/
theorem createChunksAux_ne_nil (costOf : FileMetaOk → Nat) (B : Nat) :
    ∀ (rest : List FileMeta) (chunks : List (List FileMeta)) (cur : List FileMeta) (curTok : Nat),
      (∀ c ∈ chunks, c ≠ []) →
      ∀ c ∈ createChunksAux costOf B rest chunks cur curTok, c ≠ []
  | [], chunks, cur, curTok => by
      intro hchunks c hc
      by_cases hne : cur = []
      · simp only [createChunksAux, if_pos hne] at hc
        exact hchunks c hc
      · simp only [createChunksAux, if_neg hne] at hc
        rcases List.mem_append.mp hc with h | h
        · exact hchunks c h
        · rcases List.mem_singleton.mp h with rfl
          exact hne
  | .err p n e :: rest, chunks, cur, curTok => by
      intro hchunks
      exact createChunksAux_ne_nil costOf B rest chunks cur curTok hchunks
  | .ok m :: rest, chunks, cur, curTok => by
      intro hchunks
      simp only [createChunksAux]
      split
      · refine createChunksAux_ne_nil costOf B rest _ [FileMeta.ok m] (costOf m) ?_
        intro c hc
        by_cases hne : cur = []
        · rw [if_pos hne] at hc
          exact hchunks c hc
        · rw [if_neg hne] at hc
          rcases List.mem_append.mp hc with h | h
          · exact hchunks c h
          · rcases List.mem_singleton.mp h with rfl
            exact hne
      · exact createChunksAux_ne_nil costOf B rest chunks (cur ++ [FileMeta.ok m])
          (curTok + costOf m) hchunks

/-! # Claims about the batch partitioner -/

/-- C3: for every token counter, budget and input sequence, every
output batch with two or more summaries has total prompt cost at most
the budget, and a summary whose own prompt cost exceeds the budget is
still placed, alone, in a singleton batch (never dropped and never an
error — `create_chunks` is total and the oversized summary's singleton
is itself one of the returned batches). -/
theorem c3_oversized_only_singleton (count_tokens : String → Nat) (budget : Nat)
    (files : List FileMeta) :
    (∀ c ∈ create_chunks count_tokens budget files, 2 ≤ c.length →
      chunkCost count_tokens c ≤ budget)
    ∧ (∀ m : FileMetaOk, FileMeta.ok m ∈ files →
        budget < summaryCost count_tokens m →
        [FileMeta.ok m] ∈ create_chunks count_tokens budget files) := by
  have costEq : ∀ c : List FileMeta,
      chunkCostBy (fun m => count_tokens (create_file_summary m)) c
        = chunkCost count_tokens c := fun c => rfl
  constructor
  · intro c hc h2
    rw [← costEq]
    exact createChunksAux_bounded _ budget files [] [] 0 rfl (by simp) (by simp) c hc h2
  · intro m hm hbig
    have hflat : (create_chunks count_tokens budget files).flatten
        = files.filter (fun f => ! f.isErr) :=
      createChunksAux_flatten _ budget files [] [] 0
    have hmem : FileMeta.ok m ∈ (create_chunks count_tokens budget files).flatten := by
      rw [hflat]
      exact List.mem_filter.mpr ⟨hm, by simp [FileMeta.isErr]⟩
    rcases List.mem_flatten.mp hmem with ⟨c, hcmem, hmc⟩
    have hne : c ≠ [] :=
      createChunksAux_ne_nil _ budget files [] [] 0 (by simp) c hcmem
    have hlen : ¬ 2 ≤ c.length := by
      intro h2
      have hb := createChunksAux_bounded _ budget files [] [] 0 rfl
        (by simp) (by simp) c hcmem h2
      have hlow := le_chunkCostBy_of_mem (fun m => count_tokens (create_file_summary m)) m c hmc
      have : summaryCost count_tokens m
          = (fun m => count_tokens (create_file_summary m)) m := rfl
      omega
    match c, hne, hlen, hmc with
    | [x], _, _, hmc =>
        rcases List.mem_singleton.mp hmc with rfl
        exact hcmem
    | x :: y :: ys, _, hlen, _ =>
        exact absurd (by simp) hlen

/-- C3 witness: with the sample token counter and budget 6000, the
summary `d` costs 9000 > 6000 yet is returned as a singleton batch. -/
theorem c3_oversized_only_singleton_witness :
    [FileMeta.ok (sampleMeta "d")]
      ∈ create_chunks sampleCost 6000 [FileMeta.ok (sampleMeta "d")] :=
  (c3_oversized_only_singleton sampleCost 6000 [FileMeta.ok (sampleMeta "d")]).2
    (sampleMeta "d") (by simp) (by decide)

/-- C4: for every non-empty input and budget at least 1, the
concatenation of the output batches is exactly the input with
error-flagged summaries removed (so every non-error summary appears in
exactly one position of exactly one batch, order preserved), no batch
is empty, and no batch contains an error-flagged summary. -/
theorem c4_partition_of_input (count_tokens : String → Nat) (budget : Nat)
    (files : List FileMeta) (hne : files ≠ []) (hb : 1 ≤ budget) :
    (create_chunks count_tokens budget files).flatten
        = files.filter (fun f => ! f.isErr)
    ∧ (∀ c ∈ create_chunks count_tokens budget files, c ≠ [])
    ∧ ∀ c ∈ create_chunks count_tokens budget files, ∀ f ∈ c, f.isErr = false := by
  have hflat : (create_chunks count_tokens budget files).flatten
      = files.filter (fun f => ! f.isErr) :=
    createChunksAux_flatten _ budget files [] [] 0
  refine ⟨hflat, ?_, ?_⟩
  · exact createChunksAux_ne_nil _ budget files [] [] 0 (by simp)
  · intro c hc f hf
    have : f ∈ (create_chunks count_tokens budget files).flatten :=
      List.mem_flatten_of_mem hc hf
    rw [hflat] at this
    have := (List.mem_filter.mp this).2
    revert this
    cases f.isErr <;> simp

/-- C4 witness: the concrete one-summary input with budget 6000. -/
theorem c4_partition_of_input_witness :
    (create_chunks sampleCost 6000 [FileMeta.ok (sampleMeta "a")]).flatten
        = [FileMeta.ok (sampleMeta "a")].filter (fun f => ! f.isErr)
    ∧ (∀ c ∈ create_chunks sampleCost 6000 [FileMeta.ok (sampleMeta "a")], c ≠ [])
    ∧ ∀ c ∈ create_chunks sampleCost 6000 [FileMeta.ok (sampleMeta "a")],
        ∀ f ∈ c, f.isErr = false :=
  c4_partition_of_input sampleCost 6000 [FileMeta.ok (sampleMeta "a")]
    (by simp) (by omega)

/-- C5 counterexample: on prompt costs 4000, 3000, 2500 with budget
6000, `create_chunks` does NOT return `[[s1, s2], [s3]]` (that first
batch would cost 7000 > 6000; the code closes the open batch when
adding s2 would overflow, so s1 stays alone). -/
theorem c5_counterexample :
    summaryCost sampleCost (sampleMeta "a") = 4000
    ∧ summaryCost sampleCost (sampleMeta "b") = 3000
    ∧ summaryCost sampleCost (sampleMeta "c") = 2500
    ∧ create_chunks sampleCost 6000
        [FileMeta.ok (sampleMeta "a"), FileMeta.ok (sampleMeta "b"),
          FileMeta.ok (sampleMeta "c")]
      ≠ [[FileMeta.ok (sampleMeta "a"), FileMeta.ok (sampleMeta "b")],
         [FileMeta.ok (sampleMeta "c")]] := by
  refine ⟨by decide, by decide, by decide, by decide⟩

/-- C5 amended: on prompt costs 4000, 3000, 2500 with budget 6000 the
batches are `[[s1], [s2, s3]]` (4000 + 3000 would exceed the budget, so
s2 opens a new batch and s3 joins it); on the single summary of prompt
cost 9000 with budget 6000 the result is the singleton batch `[[s1]]`
rather than an error. -/
theorem c5_concrete_scenarios :
    create_chunks sampleCost 6000
        [FileMeta.ok (sampleMeta "a"), FileMeta.ok (sampleMeta "b"),
          FileMeta.ok (sampleMeta "c")]
      = [[FileMeta.ok (sampleMeta "a")],
         [FileMeta.ok (sampleMeta "b"), FileMeta.ok (sampleMeta "c")]]
    ∧ create_chunks sampleCost 6000 [FileMeta.ok (sampleMeta "d")]
      = [[FileMeta.ok (sampleMeta "d")]]
    ∧ 6000 < summaryCost sampleCost (sampleMeta "d") := by
  refine ⟨by decide, by decide, by decide⟩

/-- C8: at a metadata entry whose preview is the marker text
`SECRETPREVIEW`, the rendered summary used for prompt costing contains
the labels, the truncated declaration list and the preview *header*,
but not the preview text itself: the source writes the literal
f-string `"**Code Preview**:\n``````\n\n"` with no interpolation, so
the preview is silently dropped from the rendered form. -/
theorem c8_preview_text_omitted :
    create_file_summary previewMeta
      = "## f.py\n\n- Path: src/f.py\n- Lines: 2\n- Size: 10 bytes\n\n**Functions**: f, g\n\n**Code Preview**:\n``````\n\n"
    ∧ strContains (create_file_summary previewMeta) "**Functions**: f, g" = true
    ∧ strContains (create_file_summary previewMeta) "**Code Preview**:" = true
    ∧ previewMeta.preview = "SECRETPREVIEW"
    ∧ strContains (create_file_summary previewMeta) previewMeta.preview = false := by
  refine ⟨by decide, by decide, by decide, by decide, by decide⟩

/-- C10: `extract_metadata` is total over the outcome of the file read:
a failed read yields the error-shaped entry carrying the path, the name
and the error message; a successful read yields a success-shaped entry
(no error key) whose token, line and size fields are the counts for the
content read, and whose `full_content` is the content itself exactly
when its token count is below 1500 and `None` otherwise. -/
theorem c10_extract_metadata_total (count_tokens : String → Nat)
    (pathStr name suffix : String) (readResult : Except String String)
    (pyParse : String → Option (List String × List String)) :
    (∀ e, readResult = .error e →
      extract_metadata count_tokens pathStr name suffix readResult pyParse
        = FileMeta.err pathStr name e)
    ∧ (∀ content, readResult = .ok content →
      ∃ m : FileMetaOk,
        extract_metadata count_tokens pathStr name suffix readResult pyParse
          = FileMeta.ok m
        ∧ m.path = pathStr ∧ m.name = name
        ∧ m.tokens = count_tokens content
        ∧ m.lines = pyLineCount content
        ∧ m.size = content.length
        ∧ (count_tokens content < 1500 → m.full_content = some content)
        ∧ (¬ count_tokens content < 1500 → m.full_content = none)) := by
  constructor
  · intro e he
    rw [he]
    rfl
  · intro content hc
    rw [hc]
    refine ⟨_, rfl, rfl, rfl, rfl, rfl, rfl, ?_, ?_⟩
    · intro h
      simp [extract_metadata, if_pos h]
    · intro h
      simp [extract_metadata, if_neg h]

/-- C10 witness: a successful read of `"hi"` with `String.length` as
the token counter. -/
theorem c10_extract_metadata_total_witness :
    ∃ m : FileMetaOk,
      extract_metadata String.length "p" "n" "" (Except.ok "hi") (fun _ => none)
        = FileMeta.ok m
      ∧ m.path = "p" ∧ m.name = "n"
      ∧ m.tokens = String.length "hi"
      ∧ m.lines = pyLineCount "hi"
      ∧ m.size = "hi".length
      ∧ (String.length "hi" < 1500 → m.full_content = some "hi")
      ∧ (¬ String.length "hi" < 1500 → m.full_content = none) :=
  (c10_extract_metadata_total String.length "p" "n" "" (Except.ok "hi")
    (fun _ => none)).2 "hi" rfl

/-! ## Lemmas about the event loop -/

/-- Splitting a run of the event loop. -/
theorem steps_add {ε ρ : Type} (m n : Nat) (σ : SchedState ε ρ) :
    steps (m + n) σ = steps m (steps n σ) := by
  induction n generalizing σ with
  | zero => rfl
  | succ k ih =>
      show steps (m + k + 1) σ = steps m (steps (k + 1) σ)
      show steps (m + k) (step σ) = steps m (steps (k + 1) σ)
      rw [ih (step σ)]
      rfl

/-- A quiescent loop (no ready task, no pending timer) stays put:
extra fuel is a no-op. -/
theorem steps_fix {ε ρ : Type} (n : Nat) (σ : SchedState ε ρ)
    (hr : σ.ready = []) (hs : σ.sleeping = []) : steps n σ = σ := by
  induction n with
  | zero => rfl
  | succ k ih =>
      have hstep : step σ = σ := by
        cases σ
        simp only at hr hs
        subst hr
        subst hs
        rfl
      show steps k (step σ) = σ
      rw [hstep, ih]

/-- `schedule_and_execute` depends on its fuel only through the final
loop state. -/
theorem schedule_and_execute_fuel_congr {ε ρ : Type} (sc : TaskScheduler ε ρ)
    (tasks : List (AgentTask ε ρ)) (f1 f2 : Nat)
    (h : steps f1 (initState sc tasks) = steps f2 (initState sc tasks)) :
    schedule_and_execute sc tasks f1 = schedule_and_execute sc tasks f2 := by
  unfold schedule_and_execute
  rw [h]

/-- Releasing the semaphore increments the free-slot count. -/
theorem releaseSem_sem {ε ρ : Type} (σ : SchedState ε ρ) :
    (releaseSem σ).sem = σ.sem + 1 := by
  unfold releaseSem
  split <;> rfl

/-- Releasing the semaphore leaves the suspension points unchanged. -/
theorem releaseSem_pcs {ε ρ : Type} (σ : SchedState ε ρ) :
    (releaseSem σ).pcs = σ.pcs := by
  unfold releaseSem
  split <;> rfl

/-- Releasing the semaphore leaves the results map unchanged. -/
theorem releaseSem_results {ε ρ : Type} (σ : SchedState ε ρ) :
    (releaseSem σ).results = σ.results := by
  unfold releaseSem
  split <;> rfl

/-- Replacing one element of a list changes `countP` by the difference
of the two elements' predicate values. -/
theorem countP_set_add {α : Type} (p : α → Bool) :
    ∀ (l : List α) (i : Nat) (a b : α), l[i]? = some a →
      (l.set i b).countP p + (if p a then 1 else 0)
        = l.countP p + (if p b then 1 else 0)
  | [], i, a, b, h => by simp at h
  | x :: xs, 0, a, b, h => by
      simp only [List.getElem?_cons_zero, Option.some.injEq] at h
      subst h
      simp only [List.set_cons_zero, List.countP_cons]
      omega
  | x :: xs, i + 1, a, b, h => by
      simp only [List.getElem?_cons_succ] at h
      have ih := countP_set_add p xs i a b h
      simp only [List.set_cons_succ, List.countP_cons]
      omega

/-! # Claims about the scheduler -/

set_option maxHeartbeats 1600000 in
/-- C1: for the coordinator's fixed three-task graph (API docs and
README each depending only on analysis) with concurrency limit 1 and
arbitrary successful operation outcomes and latencies,
`schedule_and_execute` completes: it returns a results map with the
entries for analysis, API docs and README, and the event trace shows
that the analysis result is published to `completed_stages` before the
operations of API docs and README are ever invoked (any fuel beyond
the 12 loop steps the run needs is a no-op). -/
theorem c1_graph_runs_under_capacity_one (ε ρ : Type) (rA rB rC : ρ)
    (dA dB dC extra : Nat) :
    (schedule_and_execute (TaskScheduler.new ε ρ 1)
        (coordinatorTasks (Except.ok rA) (Except.ok rB) (Except.ok rC) dA dB dC)
        (12 + extra)).map (fun p => p.1)
      = some (Except.ok [(AgentStage.analysis, rA), (AgentStage.api_documentation, rB),
          (AgentStage.readme_creation, rC)])
    ∧ (steps (12 + extra) (initState (TaskScheduler.new ε ρ 1)
        (coordinatorTasks (Except.ok rA) (Except.ok rB) (Except.ok rC) dA dB dC))).trace
      = [Event.invoke AgentStage.analysis, Event.publish AgentStage.analysis,
         Event.invoke AgentStage.api_documentation, Event.publish AgentStage.api_documentation,
         Event.invoke AgentStage.readme_creation, Event.publish AgentStage.readme_creation] := by
  have hq : steps (12 + extra) (initState (TaskScheduler.new ε ρ 1)
      (coordinatorTasks (Except.ok rA) (Except.ok rB) (Except.ok rC) dA dB dC))
      = steps 12 (initState (TaskScheduler.new ε ρ 1)
        (coordinatorTasks (Except.ok rA) (Except.ok rB) (Except.ok rC) dA dB dC)) := by
    rw [Nat.add_comm 12 extra, steps_add]
    exact steps_fix extra _ rfl rfl
  constructor
  · rw [schedule_and_execute_fuel_congr _ _ _ 12 hq]
    rfl
  · rw [hq]
    rfl

/-- C2 counterexample: when the analysis operation fails with an error
that carries no stage information (here simply `()`), the run's
`RunFailure` is `Exception(f"Task execution failed: {failures[0]}")`
wrapping that bare operation error, which names no stageId at all —
refuting "any RunFailure names at least one real failing stageId". -/
theorem c2_counterexample :
    (schedule_and_execute (TaskScheduler.new Unit Nat 3)
        (coordinatorTasks (Except.error ()) (Except.ok 2) (Except.ok 3) 1 1 1) 12).map
        (fun p => p.1)
      = some (Except.error (SchedError.opErr ()))
    ∧ (SchedError.opErr ()).mentionedStages = [] := ⟨rfl, rfl⟩

set_option maxHeartbeats 1600000 in
/-- C2 amended: if the analysis operation fails, API docs and README
end failed with a dependency-failure cause naming analysis and their
operations are never invoked (the trace holds no invoke event for
them), and the run raises a failure wrapping the first failing task's
error — stage A's own operation error; but since that underlying error
is opaque, the raised RunFailure does not itself name a failing
stageId (only dependency-failure and timeout causes carry stage
names). -/
theorem c2_analysis_failure_propagates (ε ρ : Type) (e : ε) (obB obC : Except ε ρ)
    (dB dC extra : Nat) :
    (schedule_and_execute (TaskScheduler.new ε ρ 3)
        (coordinatorTasks (Except.error e) obB obC 1 dB dC) (12 + extra)).map
        (fun p => p.1)
      = some (Except.error (SchedError.opErr e))
    ∧ gatherFailures (steps (12 + extra) (initState (TaskScheduler.new ε ρ 3)
        (coordinatorTasks (Except.error e) obB obC 1 dB dC))).pcs
      = [SchedError.opErr e, SchedError.depsFailed [AgentStage.analysis],
         SchedError.depsFailed [AgentStage.analysis]]
    ∧ (steps (12 + extra) (initState (TaskScheduler.new ε ρ 3)
        (coordinatorTasks (Except.error e) obB obC 1 dB dC))).trace
      = [Event.invoke AgentStage.analysis, Event.fail AgentStage.analysis,
         Event.fail AgentStage.api_documentation, Event.fail AgentStage.readme_creation] := by
  have hq : steps (12 + extra) (initState (TaskScheduler.new ε ρ 3)
      (coordinatorTasks (Except.error e) obB obC 1 dB dC))
      = steps 12 (initState (TaskScheduler.new ε ρ 3)
        (coordinatorTasks (Except.error e) obB obC 1 dB dC)) := by
    rw [Nat.add_comm 12 extra, steps_add]
    exact steps_fix extra _ rfl rfl
  refine ⟨?_, ?_, ?_⟩
  · rw [schedule_and_execute_fuel_congr _ _ _ 12 hq]
    rfl
  · rw [hq]
    rfl
  · rw [hq]
    rfl

/-! ## The semaphore invariant (for the concurrency bound) -/

/-- A task failure increments the free-slot count by one. -/
theorem failTask_sem {ε ρ : Type} (σ : SchedState ε ρ) (i : Nat)
    (tk : AgentTask ε ρ) (e : SchedError ε) :
    (failTask σ i tk e).sem = σ.sem + 1 := by
  unfold failTask
  rw [releaseSem_sem]

/-- A task failure marks the task's suspension point terminated. -/
theorem failTask_pcs {ε ρ : Type} (σ : SchedState ε ρ) (i : Nat)
    (tk : AgentTask ε ρ) (e : SchedError ε) :
    (failTask σ i tk e).pcs = σ.pcs.set i (TaskPC.doneErr e) := by
  unfold failTask
  rw [releaseSem_pcs]

/-- Resuming one task preserves the semaphore invariant. -/
theorem semInv_runTask {ε ρ : Type} {N : Nat} (σ : SchedState ε ρ) (i : Nat)
    (h : SemInv N σ) : SemInv N (runTask σ i) := by
  have h' : σ.sem + σ.pcs.countP (fun pc => pc.holdsSlot) = N := h
  rcases htk : σ.tasks[i]? with _ | tk
  · simp only [runTask, htk]
    exact h
  rcases hpc : σ.pcs[i]? with _ | pc
  · simp only [runTask, htk, hpc]
    exact h
  have hset : ∀ newpc : TaskPC ε,
      (σ.pcs.set i newpc).countP (fun pc => pc.holdsSlot)
          + (if pc.holdsSlot then 1 else 0)
        = σ.pcs.countP (fun pc => pc.holdsSlot)
          + (if newpc.holdsSlot then 1 else 0) :=
    fun newpc => countP_set_add _ σ.pcs i pc newpc hpc
  cases pc with
  | start =>
      simp only [runTask, htk, hpc]
      by_cases hsem : 0 < σ.sem
      · rw [if_pos hsem]
        unfold startBody
        by_cases hdeps : tk.dependencies = []
        · rw [if_pos hdeps]
          have hs : (σ.pcs.set i TaskPC.running).countP (fun pc => pc.holdsSlot) + 0
              = σ.pcs.countP (fun pc => pc.holdsSlot) + 1 := hset TaskPC.running
          show σ.sem - 1 + (σ.pcs.set i TaskPC.running).countP (fun pc => pc.holdsSlot) = N
          omega
        · rw [if_neg hdeps]
          unfold pollStep
          split
          · have hs : (σ.pcs.set i TaskPC.running).countP (fun pc => pc.holdsSlot) + 0
                = σ.pcs.countP (fun pc => pc.holdsSlot) + 1 := hset TaskPC.running
            show σ.sem - 1 + (σ.pcs.set i TaskPC.running).countP (fun pc => pc.holdsSlot) = N
            omega
          · rename_i fd hdc
            have hs : (σ.pcs.set i
                    (TaskPC.doneErr (SchedError.depsFailed fd))).countP
                    (fun pc => pc.holdsSlot) + 0
                = σ.pcs.countP (fun pc => pc.holdsSlot) + 0 :=
              hset (TaskPC.doneErr (SchedError.depsFailed fd))
            unfold SemInv countHolding
            rw [failTask_sem, failTask_pcs]
            try dsimp only
            omega
          · rename_i ms hdc
            have hs : (σ.pcs.set i
                    (TaskPC.doneErr (SchedError.depTimeout ms))).countP
                    (fun pc => pc.holdsSlot) + 0
                = σ.pcs.countP (fun pc => pc.holdsSlot) + 0 :=
              hset (TaskPC.doneErr (SchedError.depTimeout ms))
            unfold SemInv countHolding
            rw [failTask_sem, failTask_pcs]
            try dsimp only
            omega
          · have hs : (σ.pcs.set i
                    (TaskPC.waiting ({ σ with sem := σ.sem - 1 } : SchedState ε ρ).time)).countP
                    (fun pc => pc.holdsSlot) + 0
                = σ.pcs.countP (fun pc => pc.holdsSlot) + 1 :=
              hset (TaskPC.waiting ({ σ with sem := σ.sem - 1 } : SchedState ε ρ).time)
            show σ.sem - 1
                + (σ.pcs.set i (TaskPC.waiting
                    ({ σ with sem := σ.sem - 1 } : SchedState ε ρ).time)).countP
                    (fun pc => pc.holdsSlot) = N
            omega
      · rw [if_neg hsem]
        exact h
  | waiting st =>
      simp only [runTask, htk, hpc]
      unfold pollStep
      split
      · have hs : (σ.pcs.set i TaskPC.running).countP (fun pc => pc.holdsSlot) + 1
            = σ.pcs.countP (fun pc => pc.holdsSlot) + 1 := hset TaskPC.running
        show σ.sem + (σ.pcs.set i TaskPC.running).countP (fun pc => pc.holdsSlot) = N
        omega
      · rename_i fd hdc
        have hs : (σ.pcs.set i
                (TaskPC.doneErr (SchedError.depsFailed fd))).countP
                (fun pc => pc.holdsSlot) + 1
            = σ.pcs.countP (fun pc => pc.holdsSlot) + 0 :=
          hset (TaskPC.doneErr (SchedError.depsFailed fd))
        unfold SemInv countHolding
        rw [failTask_sem, failTask_pcs]
        try dsimp only
        omega
      · rename_i ms hdc
        have hs : (σ.pcs.set i
                (TaskPC.doneErr (SchedError.depTimeout ms))).countP
                (fun pc => pc.holdsSlot) + 1
            = σ.pcs.countP (fun pc => pc.holdsSlot) + 0 :=
          hset (TaskPC.doneErr (SchedError.depTimeout ms))
        unfold SemInv countHolding
        rw [failTask_sem, failTask_pcs]
        try dsimp only
        omega
      · have hs : (σ.pcs.set i (TaskPC.waiting st)).countP (fun pc => pc.holdsSlot) + 1
            = σ.pcs.countP (fun pc => pc.holdsSlot) + 1 := hset (TaskPC.waiting st)
        show σ.sem + (σ.pcs.set i (TaskPC.waiting st)).countP (fun pc => pc.holdsSlot) = N
        omega
  | running =>
      simp only [runTask, htk, hpc]
      unfold applyOp
      split
      · rename_i r hop
        have hs : (σ.pcs.set i TaskPC.doneOk).countP (fun pc => pc.holdsSlot) + 1
            = σ.pcs.countP (fun pc => pc.holdsSlot) + 0 := hset TaskPC.doneOk
        unfold SemInv countHolding
        rw [releaseSem_sem, releaseSem_pcs]
        try dsimp only
        omega
      · rename_i e hop
        have hs : (σ.pcs.set i
                (TaskPC.doneErr (SchedError.opErr e))).countP
                (fun pc => pc.holdsSlot) + 1
            = σ.pcs.countP (fun pc => pc.holdsSlot) + 0 :=
          hset (TaskPC.doneErr (SchedError.opErr e))
        unfold SemInv countHolding
        rw [failTask_sem, failTask_pcs]
        try dsimp only
        omega
  | doneOk =>
      simp only [runTask, htk, hpc]
      exact h
  | doneErr e =>
      simp only [runTask, htk, hpc]
      exact h

/-- One event-loop step preserves the semaphore invariant. -/
theorem semInv_step {ε ρ : Type} {N : Nat} (σ : SchedState ε ρ)
    (h : SemInv N σ) : SemInv N (step σ) := by
  cases σ with
  | mk tasks sem semWait ready sleeping time pcs completed failed results trace =>
      cases ready with
      | nil =>
          cases sleeping with
          | nil => exact h
          | cons wi rest => cases wi; exact h
      | cons i rest =>
          exact semInv_runTask
            ⟨tasks, sem, semWait, rest, sleeping, time, pcs, completed, failed, results, trace⟩
            i h

/-- Any number of event-loop steps preserves the semaphore invariant. -/
theorem semInv_steps {ε ρ : Type} {N : Nat} :
    ∀ (fuel : Nat) (σ : SchedState ε ρ), SemInv N σ → SemInv N (steps fuel σ)
  | 0, _, h => h
  | n + 1, σ, h => semInv_steps n (step σ) (semInv_step σ h)

/-- At the start of a run no task holds a slot and all capacity is
free. -/
theorem semInv_init {ε ρ : Type} (sc : TaskScheduler ε ρ)
    (tasks : List (AgentTask ε ρ)) :
    SemInv sc.max_parallel (initState sc tasks) := by
  unfold SemInv countHolding initState
  dsimp only
  rw [List.countP_map]
  simp [Function.comp, TaskPC.holdsSlot]

/-- C6: with concurrency-gate capacity N (the scheduler's
`max_parallel`), at no instant during a scheduling run — that is, after
any number of event-loop steps from the start of the run — do more than
N tasks hold the Running state (operation invoked, not yet completed or
failed) simultaneously. -/
theorem c6_concurrency_bound {ε ρ : Type} (sc : TaskScheduler ε ρ)
    (tasks : List (AgentTask ε ρ)) (fuel : Nat) :
    countRunning (steps fuel (initState sc tasks)) ≤ sc.max_parallel := by
  have hinv : SemInv sc.max_parallel (steps fuel (initState sc tasks)) :=
    semInv_steps fuel _ (semInv_init sc tasks)
  have hmono : countRunning (steps fuel (initState sc tasks))
      ≤ countHolding (steps fuel (initState sc tasks)) := by
    unfold countRunning countHolding
    refine List.countP_mono_left ?_
    intro pc _ hp
    cases pc <;> simp_all [TaskPC.isRunning, TaskPC.holdsSlot]
  unfold SemInv at hinv
  omega

/-! ## The results map never loses a key (for the run-state
persistence claim) -/

/-- A task failure leaves the results map unchanged. -/
theorem failTask_results {ε ρ : Type} (σ : SchedState ε ρ) (i : Nat)
    (tk : AgentTask ε ρ) (e : SchedError ε) :
    (failTask σ i tk e).results = σ.results := by
  unfold failTask
  rw [releaseSem_results]

/-- The dict assignment keeps every existing key in place (an existing
key only has its value overwritten; a new key is appended), so the key
sequence of the map extends the old one. -/
theorem dictStore_keys {ρ : Type} (s : AgentStage) (v : ρ) :
    ∀ l : List (AgentStage × ρ), l.map Prod.fst <+: (dictStore l s v).map Prod.fst
  | [] => by simp
  | (k, w) :: rest => by
      simp only [dictStore]
      by_cases hk : k = s
      · rw [if_pos hk]
        simp
      · rw [if_neg hk]
        simp only [List.map_cons]
        exact List.cons_prefix_cons.mpr ⟨rfl, dictStore_keys s v rest⟩

/-- Resuming one task never removes a stage key from the results map
(a re-run stage is overwritten in place, not removed). -/
theorem keys_grow_runTask {ε ρ : Type} (σ : SchedState ε ρ) (i : Nat) :
    σ.results.map Prod.fst <+: (runTask σ i).results.map Prod.fst := by
  rcases htk : σ.tasks[i]? with _ | tk
  · simp only [runTask, htk]
    exact List.prefix_rfl
  rcases hpc : σ.pcs[i]? with _ | pc
  · simp only [runTask, htk, hpc]
    exact List.prefix_rfl
  cases pc with
  | start =>
      simp only [runTask, htk, hpc]
      by_cases hsem : 0 < σ.sem
      · rw [if_pos hsem]
        unfold startBody
        by_cases hdeps : tk.dependencies = []
        · rw [if_pos hdeps]
          exact List.prefix_rfl
        · rw [if_neg hdeps]
          unfold pollStep
          split
          · exact List.prefix_rfl
          · rw [failTask_results]
          · rw [failTask_results]
          · exact List.prefix_rfl
      · rw [if_neg hsem]
  | waiting st =>
      simp only [runTask, htk, hpc]
      unfold pollStep
      split
      · exact List.prefix_rfl
      · rw [failTask_results]
      · rw [failTask_results]
      · exact List.prefix_rfl
  | running =>
      simp only [runTask, htk, hpc]
      unfold applyOp
      split
      · rw [releaseSem_results]
        exact dictStore_keys tk.stage _ σ.results
      · rw [failTask_results]
  | doneOk =>
      simp only [runTask, htk, hpc]
      exact List.prefix_rfl
  | doneErr e =>
      simp only [runTask, htk, hpc]
      exact List.prefix_rfl

/-- One event-loop step never removes a stage key from the results
map. -/
theorem keys_grow_step {ε ρ : Type} (σ : SchedState ε ρ) :
    σ.results.map Prod.fst <+: (step σ).results.map Prod.fst := by
  cases σ with
  | mk tasks sem semWait ready sleeping time pcs completed failed results trace =>
      cases ready with
      | nil =>
          cases sleeping with
          | nil => exact List.prefix_rfl
          | cons wi rest => cases wi; exact List.prefix_rfl
      | cons i rest =>
          exact keys_grow_runTask
            ⟨tasks, sem, semWait, rest, sleeping, time, pcs, completed, failed, results, trace⟩ i

/-- A whole run never removes a stage key from the results map. -/
theorem keys_grow_steps {ε ρ : Type} :
    ∀ (fuel : Nat) (σ : SchedState ε ρ),
      σ.results.map Prod.fst <+: (steps fuel σ).results.map Prod.fst
  | 0, _ => List.prefix_rfl
  | n + 1, σ => (keys_grow_step σ).trans (keys_grow_steps n (step σ))

/-- C9 counterexample: running a one-task graph (analysis) on a fresh
scheduler and then a second, disjoint one-task graph (API docs) on the
same scheduler object returns a results map that still contains the
first run's analysis entry — the second call did not start from empty
results (a fresh scheduler running the same second graph returns only
the API docs entry). -/
theorem c9_counterexample :
    schedule_and_execute (TaskScheduler.new Unit Nat 3)
        [⟨AgentStage.analysis, [], 0, Except.ok 7, 0⟩] 6
      = some (Except.ok [(AgentStage.analysis, 7)],
          ⟨3, [AgentStage.analysis], [], [(AgentStage.analysis, 7)]⟩)
    ∧ schedule_and_execute
        (⟨3, [AgentStage.analysis], [], [(AgentStage.analysis, 7)]⟩ : TaskScheduler Unit Nat)
        [⟨AgentStage.api_documentation, [], 0, Except.ok 8, 0⟩] 6
      = some (Except.ok [(AgentStage.analysis, 7), (AgentStage.api_documentation, 8)],
          ⟨3, [AgentStage.analysis, AgentStage.api_documentation], [],
            [(AgentStage.analysis, 7), (AgentStage.api_documentation, 8)]⟩)
    ∧ schedule_and_execute (TaskScheduler.new Unit Nat 3)
        [⟨AgentStage.api_documentation, [], 0, Except.ok 8, 0⟩] 6
      = some (Except.ok [(AgentStage.api_documentation, 8)],
          ⟨3, [AgentStage.api_documentation], [], [(AgentStage.api_documentation, 8)]⟩)
    ∧ ([(AgentStage.analysis, 7), (AgentStage.api_documentation, 8)] : List (AgentStage × Nat))
        ≠ [(AgentStage.api_documentation, 8)] :=
  ⟨rfl, rfl, rfl, by decide⟩

/-- C9 amended: the run state lives on the scheduler object and
persists across runs — `completed_stages`, `failed_stages` and
`results` are initialized in `__init__`, not per run — so any
successful `schedule_and_execute` call starts from the accumulated
state and returns a results map whose key sequence extends the keys
`self.results` already held (a re-run stage has its value overwritten
in place by the dict assignment, as the last conjunct shows on a
scheduler that already holds `(analysis, 7)`; stages not re-run keep
their entries), and the returned scheduler keeps that map; only a
freshly constructed scheduler starts from empty state. -/
theorem c9_run_state_persists (ε ρ : Type) (sc : TaskScheduler ε ρ)
    (tasks : List (AgentTask ε ρ)) (fuel : Nat)
    (res : List (AgentStage × ρ)) (sc' : TaskScheduler ε ρ)
    (h : schedule_and_execute sc tasks fuel = some (Except.ok res, sc')) :
    (sc.results.map Prod.fst <+: res.map Prod.fst ∧ sc'.results = res)
    ∧ (schedule_and_execute
          (⟨3, [AgentStage.analysis], [], [(AgentStage.analysis, 7)]⟩
            : TaskScheduler Unit Nat)
          [⟨AgentStage.analysis, [], 0, Except.ok 9, 0⟩] 6).map (fun p => p.1)
      = some (Except.ok [(AgentStage.analysis, 9)]) := by
  refine ⟨?_, rfl⟩
  have hg := keys_grow_steps fuel (initState sc tasks)
  unfold schedule_and_execute at h
  rcases hsteps : steps fuel (initState sc tasks) with
    ⟨t, s, w, r, sl, ti, pcs, comp, fl, results, tr⟩
  rw [hsteps] at h hg
  dsimp only at h hg
  split at h
  · split at h
    · rcases h with ⟨⟩
      exact ⟨hg, rfl⟩
    · simp at h
  · simp at h

/-- C9 witness: the second run of the counterexample scenario, whose
returned key sequence extends the scheduler's carried-over key. -/
theorem c9_run_state_persists_witness :
    ((([(AgentStage.analysis, 7)] : List (AgentStage × Nat)).map Prod.fst
        <+: ([(AgentStage.analysis, 7), (AgentStage.api_documentation, 8)]
              : List (AgentStage × Nat)).map Prod.fst)
      ∧ (⟨3, [AgentStage.analysis, AgentStage.api_documentation], [],
            [(AgentStage.analysis, 7), (AgentStage.api_documentation, 8)]⟩
          : TaskScheduler Unit Nat).results
        = [(AgentStage.analysis, 7), (AgentStage.api_documentation, 8)])
    ∧ (schedule_and_execute
          (⟨3, [AgentStage.analysis], [], [(AgentStage.analysis, 7)]⟩
            : TaskScheduler Unit Nat)
          [⟨AgentStage.analysis, [], 0, Except.ok 9, 0⟩] 6).map (fun p => p.1)
      = some (Except.ok [(AgentStage.analysis, 9)]) :=
  c9_run_state_persists Unit Nat
    ⟨3, [AgentStage.analysis], [], [(AgentStage.analysis, 7)]⟩
    [⟨AgentStage.api_documentation, [], 0, Except.ok 8, 0⟩] 6
    [(AgentStage.analysis, 7), (AgentStage.api_documentation, 8)]
    ⟨3, [AgentStage.analysis, AgentStage.api_documentation], [],
      [(AgentStage.analysis, 7), (AgentStage.api_documentation, 8)]⟩ rfl

/-! ## The dependency-wait loop against a static or moving environment -/

/-- If some dependency is never satisfied, the loop's all-completed
check is false at every tick. -/
theorem wait_all_check_false (deps : List AgentStage)
    (completedAt : Nat → List AgentStage) (d : AgentStage) (hd : d ∈ deps)
    (hnc : ∀ t, (completedAt t).contains d = false) :
    ∀ t, deps.all (fun x => (completedAt t).contains x) = false := by
  intro t
  cases hb : deps.all (fun x => (completedAt t).contains x)
  · rfl
  · exfalso
    have hdc := List.all_eq_true.mp hb d hd
    rw [hnc t] at hdc
    exact Bool.noConfusion hdc

/-- Before the deadline, one poll iteration with no completed and no
failed dependencies just moves to the next tick. -/
theorem wait_loop_steps_forward (deps : List AgentStage)
    (completedAt failedAt : Nat → List AgentStage) (timeoutT : Nat)
    (hall : ∀ t, deps.all (fun x => (completedAt t).contains x) = false)
    (hnf : ∀ t, deps.filter (fun x => (failedAt t).contains x) = []) :
    ∀ t, ¬ t > timeoutT →
      wait_for_dependencies deps completedAt failedAt timeoutT t
        = wait_for_dependencies deps completedAt failedAt timeoutT (t + 1) := by
  intro t ht
  have hc1 : ¬ ((deps.all fun x => (completedAt t).contains x) = true) := by
    rw [hall t]
    simp
  have hc2 : ¬ (deps.filter (fun x => (failedAt t).contains x) ≠ []) :=
    fun hne => hne (hnf t)
  rw [wait_for_dependencies.eq_def, if_neg hc1, if_neg hc2, dif_neg ht]

/-- At the first tick past the deadline, the loop exits with a timeout
naming exactly the still-missing dependencies. -/
theorem wait_loop_exit_at_deadline (deps : List AgentStage)
    (completedAt failedAt : Nat → List AgentStage) (timeoutT : Nat)
    (hall : ∀ t, deps.all (fun x => (completedAt t).contains x) = false)
    (hnf : ∀ t, deps.filter (fun x => (failedAt t).contains x) = []) :
    wait_for_dependencies deps completedAt failedAt timeoutT (timeoutT + 1)
      = WaitOutcome.timedOut (timeoutT + 1)
          (deps.filter (fun x => ! (completedAt (timeoutT + 1)).contains x)) := by
  have hc1 : ¬ ((deps.all fun x => (completedAt (timeoutT + 1)).contains x) = true) := by
    rw [hall (timeoutT + 1)]
    simp
  have hc2 : ¬ (deps.filter (fun x => (failedAt (timeoutT + 1)).contains x) ≠ []) :=
    fun hne => hne (hnf (timeoutT + 1))
  rw [wait_for_dependencies.eq_def, if_neg hc1, if_neg hc2,
    dif_pos (Nat.lt_succ_self timeoutT)]

/-- C7 counterexample: a task whose prerequisite `analysis` never
enters `completed_stages` or `failed_stages` does NOT fail with a
timeout cause when another prerequisite (`api_documentation`) is in the
failed set — the wait loop exits immediately with the
dependency-failure cause instead, so the claim's conclusion fails even
though its hypothesis about `analysis` holds. -/
theorem c7_counterexample :
    (AgentStage.analysis ∈ [AgentStage.analysis, AgentStage.api_documentation])
    ∧ (∀ t : Nat, (([] : List AgentStage)).contains AgentStage.analysis = false
        ∧ ([AgentStage.api_documentation]).contains AgentStage.analysis = false)
    ∧ wait_for_dependencies [AgentStage.analysis, AgentStage.api_documentation]
        (fun _ => []) (fun _ => [AgentStage.api_documentation]) 3000 0
      = WaitOutcome.depsFailed 0 [AgentStage.api_documentation]
    ∧ ∀ tick ms,
        wait_for_dependencies [AgentStage.analysis, AgentStage.api_documentation]
          (fun _ => []) (fun _ => [AgentStage.api_documentation]) 3000 0
        ≠ WaitOutcome.timedOut tick ms := by
  have heq : wait_for_dependencies [AgentStage.analysis, AgentStage.api_documentation]
      (fun _ => []) (fun _ => [AgentStage.api_documentation]) 3000 0
      = WaitOutcome.depsFailed 0 [AgentStage.api_documentation] := by
    rw [wait_for_dependencies.eq_def]
    rfl
  refine ⟨by simp, fun t => ⟨rfl, rfl⟩, heq, ?_⟩
  intro tick ms hcontra
  rw [heq] at hcontra
  exact WaitOutcome.noConfusion hcontra

/-- C7 amended: for a task with a non-empty prerequisite list, if some
prerequisite never enters the completed set and *no* prerequisite ever
enters the failed set, the dependency wait exits at the first poll tick
past the configured deadline (tick `timeoutT + 1`, i.e. within one
polling interval of the deadline elapsing) with a timeout cause naming
exactly the still-missing prerequisites — in particular the
never-completed one.  (If some other prerequisite enters the failed
set first, the task instead fails with the dependency-failure cause,
as the counterexample shows.) -/
theorem c7_missing_dep_times_out (deps : List AgentStage)
    (completedAt failedAt : Nat → List AgentStage) (timeoutT : Nat)
    (d : AgentStage) (hd : d ∈ deps)
    (hnc : ∀ t, (completedAt t).contains d = false)
    (hnf : ∀ t, deps.filter (fun x => (failedAt t).contains x) = []) :
    wait_for_dependencies deps completedAt failedAt timeoutT 0
      = WaitOutcome.timedOut (timeoutT + 1)
          (deps.filter (fun x => ! (completedAt (timeoutT + 1)).contains x))
    ∧ d ∈ deps.filter (fun x => ! (completedAt (timeoutT + 1)).contains x) := by
  have hall := wait_all_check_false deps completedAt d hd hnc
  have climb : ∀ k t, t + k = timeoutT + 1 →
      wait_for_dependencies deps completedAt failedAt timeoutT t
        = wait_for_dependencies deps completedAt failedAt timeoutT (timeoutT + 1) := by
    intro k
    induction k with
    | zero =>
        intro t h
        rw [show t = timeoutT + 1 from by omega]
    | succ k ih =>
        intro t h
        rw [wait_loop_steps_forward deps completedAt failedAt timeoutT hall hnf t (by omega),
          ih (t + 1) (by omega)]
  constructor
  · rw [climb (timeoutT + 1) 0 (by omega)]
    exact wait_loop_exit_at_deadline deps completedAt failedAt timeoutT hall hnf
  · refine List.mem_filter.mpr ⟨hd, ?_⟩
    rw [hnc (timeoutT + 1)]
    rfl

/-- C7 witness: one never-completing prerequisite with deadline 2 ticks
and an empty environment times out at tick 3 naming it. -/
theorem c7_missing_dep_times_out_witness :
    wait_for_dependencies [AgentStage.analysis] (fun _ => []) (fun _ => []) 2 0
      = WaitOutcome.timedOut 3
          (([AgentStage.analysis]).filter
            (fun x => ! (([] : List AgentStage)).contains x))
    ∧ AgentStage.analysis
        ∈ ([AgentStage.analysis]).filter
            (fun x => ! (([] : List AgentStage)).contains x) :=
  c7_missing_dep_times_out [AgentStage.analysis] (fun _ => []) (fun _ => []) 2
    AgentStage.analysis (by simp) (fun t => rfl) (fun t => rfl)

end DocGen
